import Mathlib

/-!
Shallow embedding of `src/quadcopter_model.py` (class `Quadcopter`).

Modelling conventions:
* numpy float arrays of size `n` are `Fin n → ℝ`; 3x3 matrices are
  `Matrix (Fin 3) (Fin 3) ℝ`;
* `np.dot (M, v)` is `Matrix.mulVec`, `np.cross` is written out
  componentwise exactly as numpy computes it, `np.linalg.inv` is
  `Matrix.inv` (which agrees with the numerical inverse exactly when the
  determinant is a unit, and numpy raises exactly when it is not);
* `scipy.integrate.odeint` is an external collaborator: it is modelled as
  an abstract function parameter that receives the carried Euler-rate
  value, the flattened initial state, the sample times and the two extra
  arguments, and produces the list of output rows together with the carry
  value left behind by its internal derivative evaluations;
* the output buffer `final_state` (a numpy 2-d array mutated in place) is
  modelled as a total function `ℕ → Fin 12 → ℝ` (initially all zeros, as
  `np.zeros`) plus the write routine for `final_state[index:index+n] = out`;
  the returned array is its first `overallLength + 100` rows;
* python's `len(...) - k` on ints is mirrored with `ℕ` subtraction; for
  the inputs considered by the claims both sides agree.
-/

noncomputable section

namespace Quadcopter

/-- The configuration dictionary built in `Quadcopter.__init__`. -/
structure Config where
  gravity : ℝ
  mass : ℝ
  length : ℝ
  inertia : Fin 3 → ℝ
  thrustToDrag : ℝ

/-- The default configuration values of `Quadcopter.__init__`. -/
def defaultConfig : Config where
  gravity := 9.806
  mass := 0.468
  length := 0.17
  inertia := ![0.0023, 0.0023, 0.0046]
  thrustToDrag := 0.016

/-- `np.cross` for 3-vectors, componentwise as numpy computes it. -/
def np_cross (a b : Fin 3 → ℝ) : Fin 3 → ℝ :=
  ![a 1 * b 2 - a 2 * b 1,
    a 2 * b 0 - a 0 * b 2,
    a 0 * b 1 - a 1 * b 0]

/-- `Quadcopter.inertia_matrix`: `np.diag(self.config['inertia'])`. -/
def inertia_matrix (cfg : Config) : Matrix (Fin 3) (Fin 3) ℝ :=
  Matrix.diagonal cfg.inertia

/-- `Quadcopter.motor_thrust` (lines 44-71). -/
def motor_thrust (cfg : Config) (moments : Fin 3 → ℝ) (coll_thrust : ℝ) : Fin 4 → ℝ :=
  let mp := moments 0
  let mq := moments 1
  let mr := moments 2
  let temp1add := coll_thrust + mr / cfg.thrustToDrag
  let temp1sub := coll_thrust - mr / cfg.thrustToDrag
  let temp2p := 2 * mp / cfg.length
  let temp2q := 2 * mq / cfg.length
  let thrust := ![temp1add - temp2q, temp1sub + temp2p, temp1add + temp2q, temp1sub - temp2p]
  fun i => thrust i / 4

/-- `Quadcopter.rotation_matrix` (lines 148-160). -/
def rotation_matrix (euler_angles : Fin 3 → ℝ) : Matrix (Fin 3) (Fin 3) ℝ :=
  let phi := euler_angles 0
  let theta := euler_angles 1
  let psi := euler_angles 2
  let cphi := Real.cos phi
  let sphi := Real.sin phi
  let cthe := Real.cos theta
  let sthe := Real.sin theta
  let cpsi := Real.cos psi
  let spsi := Real.sin psi
  !![cthe * cpsi, sphi * sthe * cpsi - cphi * spsi, cphi * sthe * cpsi + sphi * spsi;
     cthe * spsi, sphi * sthe * spsi + cphi * cpsi, cphi * sthe * spsi - sphi * cpsi;
     -sthe,       cthe * sphi,                      cthe * cphi]

/-- `Quadcopter.angular_rotation_matrix` (lines 136-146), kept exactly as the
source writes it: the row-3 sine uses `psi`, the row-3 cosine uses `phi`. -/
def angular_rotation_matrix (euler_angles : Fin 3 → ℝ) : Matrix (Fin 3) (Fin 3) ℝ :=
  let phi := euler_angles 0
  let theta := euler_angles 1
  let psi := euler_angles 2
  !![1, 0,                  -Real.sin theta;
     0, Real.cos phi,       Real.cos theta * Real.sin phi;
     0, -Real.sin psi,      Real.cos theta * Real.cos phi]

/-- `Quadcopter.dt_eulerangles_to_angular_velocity` (lines 73-77). -/
def dt_eulerangles_to_angular_velocity (dtEuler euler_angles : Fin 3 → ℝ) : Fin 3 → ℝ :=
  (angular_rotation_matrix euler_angles).mulVec dtEuler

/-- `Quadcopter.acceleration` (lines 79-87). -/
def acceleration (cfg : Config) (thrusts : Fin 4 → ℝ) (euler_angles : Fin 3 → ℝ) :
    Fin 3 → ℝ :=
  let force_z_body := (∑ i, thrusts i) / cfg.mass
  let force_body : Fin 3 → ℝ := ![0, 0, force_z_body]
  (rotation_matrix euler_angles).mulVec force_body - ![0, 0, cfg.gravity]

/-- The array `thrust_matrix` built inside `Quadcopter.angular_acceleration`
(lines 94-96): the net moments produced by the four motor thrusts. -/
def thrust_matrix (cfg : Config) (thrust : Fin 4 → ℝ) : Fin 3 → ℝ :=
  ![cfg.length * (thrust 1 - thrust 3),
    cfg.length * (thrust 2 - thrust 0),
    cfg.thrustToDrag * (thrust 0 - thrust 1 + thrust 2 - thrust 3)]

/-- `Quadcopter.angular_acceleration` (lines 89-103). -/
def angular_acceleration (cfg : Config) (omega : Fin 3 → ℝ) (thrust : Fin 4 → ℝ) :
    Fin 3 → ℝ :=
  let inverse_inertia := (inertia_matrix cfg)⁻¹
  let part1 := inverse_inertia.mulVec (thrust_matrix cfg thrust)
  let part2 := inverse_inertia.mulVec omega
  let part3 := (inertia_matrix cfg).mulVec omega
  part1 - np_cross part2 part3

/-- `Quadcopter.angular_velocity_to_dt_eulerangles` (lines 105-110). -/
def angular_velocity_to_dt_eulerangles (omega euler_angles : Fin 3 → ℝ) : Fin 3 → ℝ :=
  ((angular_rotation_matrix euler_angles)⁻¹).mulVec omega

/-- `Quadcopter.moments` (lines 112-134). -/
def moments (cfg : Config) (desired_acc angular_vel : Fin 3 → ℝ) : Fin 3 → ℝ :=
  let inverse_inertia := (inertia_matrix cfg)⁻¹
  let part1 := inverse_inertia.mulVec angular_vel
  let part2 := (inertia_matrix cfg).mulVec angular_vel
  let cr := np_cross part1 part2
  (inertia_matrix cfg).mulVec (desired_acc + cr)

/-- `state[:3]` of the flattened 12-state. -/
def posPart (s : Fin 12 → ℝ) : Fin 3 → ℝ := ![s 0, s 1, s 2]

/-- `state[3:6]` of the flattened 12-state. -/
def velPart (s : Fin 12 → ℝ) : Fin 3 → ℝ := ![s 3, s 4, s 5]

/-- `state[6:9]` of the flattened 12-state. -/
def eulerPart (s : Fin 12 → ℝ) : Fin 3 → ℝ := ![s 6, s 7, s 8]

/-- `state[9:12]` of the flattened 12-state. -/
def omegaPart (s : Fin 12 → ℝ) : Fin 3 → ℝ := ![s 9, s 10, s 11]

/-- `np.concatenate` of four 3-vectors into the 12-vector returned by the
derivative callback (and built by `update_state` before calling `odeint`). -/
def concat12 (a b c d : Fin 3 → ℝ) : Fin 12 → ℝ := fun i =>
  if h : i.val < 3 then a ⟨i.val, h⟩
  else if h : i.val < 6 then b ⟨i.val - 3, by omega⟩
  else if h : i.val < 9 then c ⟨i.val - 6, by omega⟩
  else d ⟨i.val - 9, by omega⟩

/-- `Quadcopter._integrator` (lines 227-269), the derivative callback handed
to `odeint`.  The mutable field `self._euler_dot` is made explicit: the
function takes the current carry and returns the derivative together with
the new carry it stores.  As in the source, the local `euler_dot` is first
bound to the carry and then rebound to the freshly computed Euler rate
before it is used. -/
def integrator (cfg : Config) (carry : Fin 3 → ℝ) (state : Fin 12 → ℝ) (t : ℝ)
    (coll_thrust : ℝ) (desired_angular_acc : Fin 3 → ℝ) :
    (Fin 12 → ℝ) × (Fin 3 → ℝ) :=
  let pos := posPart state
  let velocity := velPart state
  let euler := eulerPart state
  let omega := omegaPart state
  let euler_dot := carry
  let ms := moments cfg desired_angular_acc omega
  let thrusts := motor_thrust cfg ms coll_thrust
  let acc := acceleration cfg thrusts euler
  let omega_dot := angular_acceleration cfg omega thrusts
  let euler_dot := angular_velocity_to_dt_eulerangles omega euler
  (concat12 velocity acc euler_dot omega_dot, euler_dot)

/-- The per-instance vehicle state dictionary (`Quadcopter.state`). -/
structure VehicleState where
  position : Fin 3 → ℝ
  velocity : Fin 3 → ℝ
  orientation : Fin 3 → ℝ
  ang_velocity : Fin 3 → ℝ

/-- The all-zero state built by the constructor. -/
def zeroVehicleState : VehicleState where
  position := fun _ => 0
  velocity := fun _ => 0
  orientation := fun _ => 0
  ang_velocity := fun _ => 0

/-- `np.concatenate` of the four state fields (line 208-209). -/
def flatten (v : VehicleState) : Fin 12 → ℝ :=
  concat12 v.position v.velocity v.orientation v.ang_velocity

/-- `np.split(row, 4)` back into the four state fields (line 214-215). -/
def unflatten (s : Fin 12 → ℝ) : VehicleState where
  position := posPart s
  velocity := velPart s
  orientation := eulerPart s
  ang_velocity := omegaPart s

/-- One flight segment `(coll_thrust, desired_angular_acc, t)`. -/
structure Segment where
  coll_thrust : ℝ
  desired_acc : Fin 3 → ℝ
  duration : ℝ

/-- `len(np.arange(0, t, dt))`. -/
def arangeLen (t dt : ℝ) : ℕ := Nat.ceil (t / dt)

/-- `np.arange(0, t, dt)` as a list of sample times. -/
def arange (t dt : ℝ) : List ℝ :=
  (List.range (arangeLen t dt)).map (fun i : ℕ => (i : ℝ) * dt)

/-- The external `scipy.integrate.odeint` capability: carry in, initial
12-state, sample times, the two fixed extra arguments; list of output rows
(one per sample time) and carry out. -/
def OdeFn : Type :=
  (Fin 3 → ℝ) → (Fin 12 → ℝ) → List ℝ → ℝ → (Fin 3 → ℝ) →
    (List (Fin 12 → ℝ)) × (Fin 3 → ℝ)

/-- The loop state of `Quadcopter.update_state`: the resident vehicle state,
the carried Euler rate `self._euler_dot`, the output buffer `final_state`
and the write index. -/
structure RunState where
  vstate : VehicleState
  euler_dot : Fin 3 → ℝ
  buffer : ℕ → Fin 12 → ℝ
  index : ℕ

/-- `final_state[start:start+len(rows)] = rows` on the buffer. -/
def writeRows (buf : ℕ → Fin 12 → ℝ) (start : ℕ) (rows : List (Fin 12 → ℝ)) :
    ℕ → Fin 12 → ℝ :=
  fun j => if start ≤ j ∧ j < start + rows.length then rows.getD (j - start) (buf j) else buf j

/-- One iteration of the section loop of `Quadcopter.update_state`
(lines 201-223).  A section whose duration is below `2 * dt` is skipped
(`continue`); otherwise `odeint` is run, the resident state is updated from
the last output row, and (when saving) the rows are written at the current
index, which then advances by one less than the number of rows. -/
def section_step (cfg : Config) (dt : ℝ) (ode : OdeFn) (save : Bool)
    (rs : RunState) (sec : Segment) : RunState :=
  if sec.duration < 2 * dt then rs
  else
    let ts := arange sec.duration dt
    let st := flatten rs.vstate
    let res := ode rs.euler_dot st ts sec.coll_thrust sec.desired_acc
    let output := res.1
    let output_length := output.length
    let lastRow := output.getD (output_length - 1) st
    if save then
      { vstate := unflatten lastRow
        euler_dot := res.2
        buffer := writeRows rs.buffer rs.index output
        index := rs.index + output_length - 1 }
    else
      { vstate := unflatten lastRow
        euler_dot := res.2
        buffer := rs.buffer
        index := rs.index }

/-- `overall_length` of `Quadcopter.update_state` (line 191). -/
def overallLength (dt : ℝ) (segs : List Segment) : ℕ :=
  arangeLen ((segs.map Segment.duration).sum) dt - (segs.length - 1)

/-- `Quadcopter.update_state` (lines 166-225).  Returns the trajectory the
python method returns (the first `overallLength + 100` rows of the buffer
when saving, the empty list otherwise) together with the final loop state
(resident vehicle state, carry, buffer, index). -/
def update_state (cfg : Config) (dt : ℝ) (ode : OdeFn) (save : Bool)
    (init : VehicleState) (segs : List Segment) :
    (List (Fin 12 → ℝ)) × RunState :=
  let size := overallLength dt segs + 100
  let rs0 : RunState :=
    { vstate := init, euler_dot := fun _ => 0, buffer := fun _ _ => 0, index := 0 }
  let rsF := segs.foldl (section_step cfg dt ode save) rs0
  (if save then (List.range size).map rsF.buffer else [], rsF)

/-- A concrete integrator instance (constant-in-time solution rows, carry
passed through) used to exercise the runner at concrete inputs. -/
def odeConst : OdeFn :=
  fun c s ts _ _ => (ts.map (fun _ => s), c)

/-- A concrete flight segment of duration `3 * dt` at `dt = 0.001`. -/
def segA : Segment where
  coll_thrust := 0
  desired_acc := ![0, 0, 0]
  duration := 0.003

/-- A concrete flight segment of duration `2 * dt` at `dt = 0.001`. -/
def segB : Segment where
  coll_thrust := 0
  desired_acc := ![0, 0, 0]
  duration := 0.002

/-- Every 3-vector equals the explicit vector of its components. -/
theorem vec3_eta (v : Fin 3 → ℝ) : ![v 0, v 1, v 2] = v := by
  funext i
  fin_cases i <;> rfl

/-- The mixing of `motor_thrust` followed by the `thrust_matrix` of
`angular_acceleration` recovers the moments, when the arm length and the
thrust-to-drag constant are nonzero. -/
theorem thrust_matrix_motor_thrust (cfg : Config) (hL : cfg.length ≠ 0)
    (hk : cfg.thrustToDrag ≠ 0) (m : Fin 3 → ℝ) (ct : ℝ) :
    thrust_matrix cfg (motor_thrust cfg m ct) = m := by
  conv_rhs => rw [← vec3_eta m]
  funext i
  fin_cases i <;>
    · simp only [thrust_matrix, motor_thrust, Matrix.cons_val_zero, Matrix.cons_val_one,
        Matrix.head_cons, Matrix.cons_val_two, Matrix.tail_cons, Matrix.cons_val_three,
        Matrix.cons_val_fin_one]
      field_simp
      ring

/-- The four motor thrusts always sum to the collective thrust. -/
theorem motor_thrust_sum (cfg : Config) (m : Fin 3 → ℝ) (ct : ℝ) :
    (∑ i, motor_thrust cfg m ct i) = ct := by
  simp only [motor_thrust, Fin.sum_univ_four, Matrix.cons_val_zero, Matrix.cons_val_one,
    Matrix.head_cons, Matrix.cons_val_two, Matrix.tail_cons, Matrix.cons_val_three,
    Matrix.cons_val_fin_one]
  ring

/-- C1: `motor_thrust([Mp, Mq, Mr], collectiveThrust)` returns exactly
`T1 = (ct + Mr/k − 2·Mq/L)/4`, `T2 = (ct − Mr/k + 2·Mp/L)/4`,
`T3 = (ct + Mr/k + 2·Mq/L)/4`, `T4 = (ct − Mr/k − 2·Mp/L)/4`, where `L` is
the configured arm length and `k` the configured thrust-to-drag constant. -/
theorem c1_motor_thrust_formula (cfg : Config) (m : Fin 3 → ℝ) (ct : ℝ) :
    motor_thrust cfg m ct
      = ![(ct + m 2 / cfg.thrustToDrag - 2 * m 1 / cfg.length) / 4,
          (ct - m 2 / cfg.thrustToDrag + 2 * m 0 / cfg.length) / 4,
          (ct + m 2 / cfg.thrustToDrag + 2 * m 1 / cfg.length) / 4,
          (ct - m 2 / cfg.thrustToDrag - 2 * m 0 / cfg.length) / 4] := by
  funext i
  fin_cases i <;> rfl

/-- C2: applying `motor_thrust` and then the inverse mapping
`[L·(T2−T4), L·(T3−T1), k·(T1−T2+T3−T4)]` (the `thrust_matrix` computed
inside `angular_acceleration`) recovers the original moments, and the four
returned thrusts sum to the collective thrust.  The recovery step divides
by the arm length and the thrust-to-drag constant, so those must be
nonzero (they are positive in any valid configuration). -/
theorem c2_mixer_roundtrip (cfg : Config) (hL : cfg.length ≠ 0)
    (hk : cfg.thrustToDrag ≠ 0) (m : Fin 3 → ℝ) (ct : ℝ) :
    thrust_matrix cfg (motor_thrust cfg m ct) = m
      ∧ (∑ i, motor_thrust cfg m ct i) = ct :=
  ⟨thrust_matrix_motor_thrust cfg hL hk m ct, motor_thrust_sum cfg m ct⟩

/-- C2 witness: the round trip at the default configuration on concrete
inputs. -/
theorem c2_mixer_roundtrip_witness :
    thrust_matrix defaultConfig (motor_thrust defaultConfig ![1, 2, 3] 5) = ![1, 2, 3]
      ∧ (∑ i, motor_thrust defaultConfig ![1, 2, 3] 5 i) = 5 :=
  c2_mixer_roundtrip defaultConfig
    (by norm_num [defaultConfig]) (by norm_num [defaultConfig]) ![1, 2, 3] 5

/-- C9: the derivative returned by `_integrator` does not depend on the
carried Euler-rate value, and the carry left behind is always the freshly
computed Euler rate `angular_velocity_to_dt_eulerangles(omega, euler)`. -/
theorem c9_carry_not_read (cfg : Config) (c1 c2 : Fin 3 → ℝ) (s : Fin 12 → ℝ)
    (t ct : ℝ) (da : Fin 3 → ℝ) :
    (integrator cfg c1 s t ct da).1 = (integrator cfg c2 s t ct da).1
      ∧ (integrator cfg c1 s t ct da).2
          = angular_velocity_to_dt_eulerangles (omegaPart s) (eulerPart s) :=
  ⟨rfl, rfl⟩

/-- C4 amended: `angular_acceleration(omega, thrusts)` equals
`I⁻¹·thrustMoments(thrusts) − (I⁻¹·omega) × (I·omega)`; the factor `I⁻¹`
sits inside the left operand of the cross product, it does not multiply the
whole parenthesis. -/
theorem c4_amended_angular_acceleration (cfg : Config) (omega : Fin 3 → ℝ)
    (thrust : Fin 4 → ℝ) :
    angular_acceleration cfg omega thrust
      = ((inertia_matrix cfg)⁻¹).mulVec (thrust_matrix cfg thrust)
          - np_cross (((inertia_matrix cfg)⁻¹).mulVec omega)
              ((inertia_matrix cfg).mulVec omega) := rfl

/-- The inverse of a diagonal matrix with nonzero diagonal entries. -/
theorem inv_diagonal_of_ne (v : Fin 3 → ℝ) (hv : ∀ i, v i ≠ 0) :
    (Matrix.diagonal v)⁻¹ = Matrix.diagonal (fun i => (v i)⁻¹) := by
  apply Matrix.inv_eq_right_inv
  rw [Matrix.diagonal_mul_diagonal]
  have h : (fun i => v i * (v i)⁻¹) = fun _ : Fin 3 => (1 : ℝ) :=
    funext fun i => mul_inv_cancel₀ (hv i)
  calc Matrix.diagonal (fun i => v i * (v i)⁻¹)
      = Matrix.diagonal (fun _ : Fin 3 => (1 : ℝ)) := by rw [h]
    _ = 1 := Matrix.diagonal_one

/-- C4 counterexample: at the default configuration, with
`omega = [0, 1, 1]` and all four thrusts zero, the code's angular
acceleration differs from `I⁻¹·(thrustMoments − omega × (I·omega))`
(first component −1.5 versus −1). -/
theorem c4_counterexample :
    angular_acceleration defaultConfig ![0, 1, 1] ![0, 0, 0, 0]
      ≠ ((inertia_matrix defaultConfig)⁻¹).mulVec
          (thrust_matrix defaultConfig ![0, 0, 0, 0]
            - np_cross ![0, 1, 1] ((inertia_matrix defaultConfig).mulVec ![0, 1, 1])) := by
  have hinv : (inertia_matrix defaultConfig)⁻¹
      = Matrix.diagonal (fun i => ((defaultConfig.inertia) i)⁻¹) := by
    apply inv_diagonal_of_ne
    intro i
    fin_cases i <;> norm_num [defaultConfig]
  intro h
  have h0 := congrFun h 0
  rw [angular_acceleration, hinv] at h0
  simp only [inertia_matrix, defaultConfig, thrust_matrix, np_cross, Pi.sub_apply,
    Matrix.mulVec_diagonal, Matrix.cons_val_zero, Matrix.cons_val_one, Matrix.head_cons,
    Matrix.cons_val_two, Matrix.tail_cons, Matrix.cons_val_three, Matrix.cons_val_fin_one] at h0
  norm_num at h0

/-- The determinant of the Euler-rate matrix as written in the source:
because row 3 mixes `psi` into the sine entry, the determinant is
`cos θ · (cos²φ + sin φ · sin ψ)` rather than the textbook `cos θ`. -/
theorem det_angular_rotation_matrix (e : Fin 3 → ℝ) :
    (angular_rotation_matrix e).det
      = Real.cos (e 1) * ((Real.cos (e 0)) ^ 2 + Real.sin (e 0) * Real.sin (e 2)) := by
  simp only [angular_rotation_matrix, Matrix.det_fin_three, Matrix.cons_val_zero,
    Matrix.cons_val_one, Matrix.head_cons, Matrix.cons_val_two, Matrix.tail_cons,
    Matrix.head_fin_const, Matrix.cons_val', Matrix.of_apply, Matrix.empty_val',
    Matrix.cons_val_fin_one]
  ring

/-- C5 counterexample: the claim's reading of row 3 as
`[0, −sin ψ, cos θ · cos ψ]` is wrong: at Euler angles `(0, 0, π/2)` the
entry `(3,3)` of the matrix is `cos θ · cos φ = 1`, not
`cos θ · cos ψ = 0`. -/
theorem c5_counterexample :
    angular_rotation_matrix ![0, 0, Real.pi / 2] 2 2
      ≠ Real.cos ((![0, 0, Real.pi / 2] : Fin 3 → ℝ) 1)
          * Real.cos ((![0, 0, Real.pi / 2] : Fin 3 → ℝ) 2) := by
  have hL : angular_rotation_matrix ![0, 0, Real.pi / 2] 2 2
      = Real.cos 0 * Real.cos 0 := rfl
  have h1 : ((![0, 0, Real.pi / 2] : Fin 3 → ℝ) 1) = 0 := rfl
  have h2 : ((![0, 0, Real.pi / 2] : Fin 3 → ℝ) 2) = Real.pi / 2 := rfl
  rw [hL, h1, h2, Real.cos_zero, Real.cos_pi_div_two]
  norm_num

/-- C5 amended: in the matrix returned by `angular_rotation_matrix`, row 1
is `[1, 0, −sin θ]`, row 2 is `[0, cos φ, cos θ · sin φ]`, and row 3 is
`[0, −sin ψ, cos θ · cos φ]`: only the sine entry of row 3 uses `psi`
(where consistency with row 2 would use `phi`); its cosine entry still
uses `phi`. -/
theorem c5_amended_rows (e : Fin 3 → ℝ) :
    angular_rotation_matrix e 0 = ![1, 0, -Real.sin (e 1)]
      ∧ angular_rotation_matrix e 1 = ![0, Real.cos (e 0), Real.cos (e 1) * Real.sin (e 0)]
      ∧ angular_rotation_matrix e 2 = ![0, -Real.sin (e 2), Real.cos (e 1) * Real.cos (e 0)] :=
  ⟨rfl, rfl, rfl⟩

/-- C6 counterexample: the claim that the Euler-rate matrix is invertible
whenever `cos θ ≠ 0` is wrong: at Euler angles `(π/2, 0, π)` the pitch
cosine is `cos 0 = 1 ≠ 0`, yet the matrix is singular. -/
theorem c6_counterexample :
    Real.cos ((![Real.pi / 2, 0, Real.pi] : Fin 3 → ℝ) 1) ≠ 0
      ∧ ¬ IsUnit (angular_rotation_matrix ![Real.pi / 2, 0, Real.pi]).det := by
  constructor
  · have h1 : ((![Real.pi / 2, 0, Real.pi] : Fin 3 → ℝ) 1) = 0 := rfl
    rw [h1, Real.cos_zero]
    norm_num
  · rw [isUnit_iff_ne_zero, ne_eq, not_not, det_angular_rotation_matrix]
    have h0 : ((![Real.pi / 2, 0, Real.pi] : Fin 3 → ℝ) 0) = Real.pi / 2 := rfl
    have h2 : ((![Real.pi / 2, 0, Real.pi] : Fin 3 → ℝ) 2) = Real.pi := rfl
    rw [h0, h2, Real.cos_pi_div_two, Real.sin_pi]
    ring

/-- C6 amended: `angular_velocity_to_dt_eulerangles` inverts
`angular_rotation_matrix(eulerAngles)`, and that matrix is singular exactly
when `cos θ · (cos²φ + sin φ · sin ψ) = 0`: it is invertible iff
`cos θ ≠ 0` and `cos²φ + sin φ · sin ψ ≠ 0`.  In particular it is always
singular at gimbal lock `cos θ = 0`, but singular at further orientations
as well. -/
theorem c6_amended_invertibility (e : Fin 3 → ℝ) :
    IsUnit (angular_rotation_matrix e).det
      ↔ (Real.cos (e 1) ≠ 0
          ∧ (Real.cos (e 0)) ^ 2 + Real.sin (e 0) * Real.sin (e 2) ≠ 0) := by
  rw [isUnit_iff_ne_zero, det_angular_rotation_matrix, mul_ne_zero_iff]

/-- The explicit zero 3-vector is the zero function. -/
theorem vec3_zero : (![0, 0, 0] : Fin 3 → ℝ) = 0 := by
  funext i
  fin_cases i <;> rfl

/-- `np.cross` of two zero vectors is zero. -/
theorem np_cross_zero : np_cross 0 0 = 0 := by
  funext i
  fin_cases i <;> simp [np_cross]

/-- `moments` of zero desired acceleration and zero angular velocity is
zero. -/
theorem moments_zero (cfg : Config) : moments cfg ![0, 0, 0] 0 = 0 := by
  simp only [moments, Matrix.mulVec_zero]
  rw [np_cross_zero, add_zero, vec3_zero, Matrix.mulVec_zero]

/-- `motor_thrust` of zero moments and zero collective thrust is zero. -/
theorem motor_thrust_zero (cfg : Config) : motor_thrust cfg 0 0 = 0 := by
  funext i
  fin_cases i <;> simp [motor_thrust]

/-- `acceleration` with all four thrusts zero is pure gravity along `-z`,
for every orientation. -/
theorem acceleration_zero (cfg : Config) (e : Fin 3 → ℝ) :
    acceleration cfg 0 e = ![0, 0, -cfg.gravity] := by
  simp only [acceleration, Pi.zero_apply, Finset.sum_const_zero, zero_div]
  rw [vec3_zero, Matrix.mulVec_zero]
  funext i
  fin_cases i <;> simp

/-- The `thrust_matrix` of four zero thrusts is zero. -/
theorem thrust_matrix_zero (cfg : Config) : thrust_matrix cfg 0 = 0 := by
  funext i
  fin_cases i <;> simp [thrust_matrix]

/-- `angular_acceleration` at zero angular velocity and zero thrusts is
zero. -/
theorem angular_acceleration_zero (cfg : Config) :
    angular_acceleration cfg 0 0 = 0 := by
  simp only [angular_acceleration, Matrix.mulVec_zero]
  rw [thrust_matrix_zero, Matrix.mulVec_zero, np_cross_zero, sub_zero]

/-- The Euler rate computed from zero angular velocity is zero, for every
orientation. -/
theorem avde_zero (e : Fin 3 → ℝ) :
    angular_velocity_to_dt_eulerangles 0 e = 0 := by
  simp [angular_velocity_to_dt_eulerangles, Matrix.mulVec_zero]

/-- The last three components of the concatenated derivative vector. -/
theorem omegaPart_concat12 (a b c d : Fin 3 → ℝ) :
    omegaPart (concat12 a b c d) = d := by
  funext i
  fin_cases i <;> rfl

/-- C3: from rest (zero velocity, zero angular velocity, orientation with
invertible Euler-rate matrix), with commanded collective thrust 0 and
desired angular acceleration `[0,0,0]`, the derivative has component 6
(the vertical acceleration) equal to `-gravity` and the other eleven
components zero. -/
theorem c3_rest_derivative (cfg : Config) (carry : Fin 3 → ℝ) (s : Fin 12 → ℝ)
    (t : ℝ) (hv : velPart s = 0) (hw : omegaPart s = 0)
    (hM : IsUnit (angular_rotation_matrix (eulerPart s)).det) :
    (integrator cfg carry s t 0 ![0, 0, 0]).1
      = fun i => if i.val = 5 then -cfg.gravity else 0 := by
  show concat12 (velPart s)
      (acceleration cfg (motor_thrust cfg (moments cfg ![0, 0, 0] (omegaPart s)) 0)
        (eulerPart s))
      (angular_velocity_to_dt_eulerangles (omegaPart s) (eulerPart s))
      (angular_acceleration cfg (omegaPart s)
        (motor_thrust cfg (moments cfg ![0, 0, 0] (omegaPart s)) 0))
    = fun i => if i.val = 5 then -cfg.gravity else 0
  rw [hv, hw, moments_zero, motor_thrust_zero, acceleration_zero,
    angular_acceleration_zero, avde_zero]
  funext i
  fin_cases i <;> rfl

/-- C3 witness: the rest derivative at the default configuration, zero
carry, the all-zero state and time 0. -/
theorem c3_rest_derivative_witness :
    (integrator defaultConfig 0 (fun _ => 0) 0 0 ![0, 0, 0]).1
      = fun i => if i.val = 5 then -defaultConfig.gravity else 0 := by
  have hv : velPart (fun _ => 0) = 0 := by
    funext i
    fin_cases i <;> rfl
  have hw : omegaPart (fun _ => 0) = 0 := by
    funext i
    fin_cases i <;> rfl
  have hM : IsUnit (angular_rotation_matrix (eulerPart (fun _ => 0))).det := by
    have h : (angular_rotation_matrix (eulerPart (fun _ => 0))).det = 1 := by
      have h0 : eulerPart (fun _ => 0) 0 = 0 := rfl
      have h1 : eulerPart (fun _ => 0) 1 = 0 := rfl
      have h2 : eulerPart (fun _ => 0) 2 = 0 := rfl
      rw [det_angular_rotation_matrix, h0, h1, h2, Real.cos_zero, Real.sin_zero]
      norm_num
    rw [h]
    exact isUnit_one
  exact c3_rest_derivative defaultConfig 0 (fun _ => 0) 0 hv hw hM

/-- Composing the moment computation, the motor-thrust mixing and the
angular-acceleration computation returns exactly the desired angular
acceleration: the two occurrences of the gyroscopic cross term
`(I⁻¹·omega) × (I·omega)` cancel. -/
theorem angular_acceleration_moments (cfg : Config) (hL : cfg.length ≠ 0)
    (hk : cfg.thrustToDrag ≠ 0) (hdet : IsUnit (inertia_matrix cfg).det)
    (da omega : Fin 3 → ℝ) (ct : ℝ) :
    angular_acceleration cfg omega (motor_thrust cfg (moments cfg da omega) ct) = da := by
  simp only [angular_acceleration, moments]
  rw [thrust_matrix_motor_thrust cfg hL hk]
  rw [Matrix.mulVec_mulVec, Matrix.nonsing_inv_mul _ hdet, Matrix.one_mulVec]
  exact add_sub_cancel_right da _

/-- C10: for every state, collective thrust and desired angular
acceleration, the last three components of the derivative returned by
`_integrator` equal the desired angular acceleration exactly (in exact
arithmetic), given the configured arm length, thrust-to-drag constant and
principal inertias are nonzero (they are positive in any valid
configuration). -/
theorem c10_derivative_tracks_desired (cfg : Config) (hL : cfg.length ≠ 0)
    (hk : cfg.thrustToDrag ≠ 0) (hI : ∀ i, cfg.inertia i ≠ 0)
    (carry : Fin 3 → ℝ) (s : Fin 12 → ℝ) (t ct : ℝ) (da : Fin 3 → ℝ) :
    omegaPart ((integrator cfg carry s t ct da).1) = da := by
  have hdet : IsUnit (inertia_matrix cfg).det := by
    rw [inertia_matrix, Matrix.det_diagonal, isUnit_iff_ne_zero]
    exact Finset.prod_ne_zero_iff.mpr (fun i _ => hI i)
  show omegaPart (concat12 (velPart s)
      (acceleration cfg (motor_thrust cfg (moments cfg da (omegaPart s)) ct) (eulerPart s))
      (angular_velocity_to_dt_eulerangles (omegaPart s) (eulerPart s))
      (angular_acceleration cfg (omegaPart s)
        (motor_thrust cfg (moments cfg da (omegaPart s)) ct))) = da
  rw [omegaPart_concat12]
  exact angular_acceleration_moments cfg hL hk hdet da (omegaPart s) ct

/-- C10 witness: the derivative tracks the concrete desired angular
acceleration `[1, 2, 3]` at the default configuration. -/
theorem c10_derivative_tracks_desired_witness :
    omegaPart ((integrator defaultConfig 0 (fun _ => 0) 0 0 ![1, 2, 3]).1) = ![1, 2, 3] :=
  c10_derivative_tracks_desired defaultConfig
    (by norm_num [defaultConfig]) (by norm_num [defaultConfig])
    (by intro i; fin_cases i <;> norm_num [defaultConfig])
    0 (fun _ => 0) 0 0 ![1, 2, 3]

/-- A section whose duration is below `2 * dt` leaves the loop state
untouched (`continue` in the source). -/
theorem section_step_skip (cfg : Config) (dt : ℝ) (ode : OdeFn) (save : Bool)
    (rs : RunState) (sec : Segment) (h : sec.duration < 2 * dt) :
    section_step cfg dt ode save rs sec = rs := by
  simp only [section_step]
  rw [if_pos h]

/-- C7: a segment with duration strictly below `2 * dt` is skipped
silently by the section loop of `update_state`: with any surrounding
segments, the final loop state (resident vehicle state, carried Euler
rate, output-buffer contents and write index) is the same as if the
segment were absent. -/
theorem c7_short_segment_skipped (cfg : Config) (dt : ℝ) (ode : OdeFn) (save : Bool)
    (seg : Segment) (h : seg.duration < 2 * dt) (init : VehicleState)
    (l1 l2 : List Segment) :
    (update_state cfg dt ode save init (l1 ++ seg :: l2)).2
      = (update_state cfg dt ode save init (l1 ++ l2)).2 := by
  show (l1 ++ seg :: l2).foldl (section_step cfg dt ode save)
      { vstate := init, euler_dot := fun _ => 0, buffer := fun _ _ => 0, index := 0 }
    = (l1 ++ l2).foldl (section_step cfg dt ode save)
      { vstate := init, euler_dot := fun _ => 0, buffer := fun _ _ => 0, index := 0 }
  rw [List.foldl_append, List.foldl_append, List.foldl_cons,
    section_step_skip cfg dt ode save _ seg h]

/-- C7 witness: a segment of duration `0.5 * dt` between no other
segments is dropped without any effect on the loop state. -/
theorem c7_short_segment_skipped_witness :
    (update_state defaultConfig 0.001 odeConst true zeroVehicleState
        ([] ++ { coll_thrust := 0, desired_acc := ![0, 0, 0], duration := 0.0005 } :: [])).2
      = (update_state defaultConfig 0.001 odeConst true zeroVehicleState ([] ++ [])).2 :=
  c7_short_segment_skipped defaultConfig 0.001 odeConst true
    { coll_thrust := 0, desired_acc := ![0, 0, 0], duration := 0.0005 }
    (by show (0.0005 : ℝ) < 2 * 0.001; norm_num) zeroVehicleState [] []

/-- `np.arange(0, t, dt)` has `arangeLen t dt` entries. -/
theorem arange_length (t dt : ℝ) : (arange t dt).length = arangeLen t dt := by
  rw [arange, List.length_map, List.length_range]

/-- A duration of at least `2 * dt` yields at least two sample points. -/
theorem arangeLen_ge_two (t dt : ℝ) (hdt : 0 < dt) (h : 2 * dt ≤ t) :
    2 ≤ arangeLen t dt := by
  have h2 : (1 : ℝ) < t / dt := by
    rw [lt_div_iff₀ hdt]
    nlinarith
  have h3 : 1 < arangeLen t dt := Nat.lt_ceil.mpr (by exact_mod_cast h2)
  omega

/-- Flattening after splitting a 12-row is the identity. -/
theorem flatten_unflatten (s : Fin 12 → ℝ) : flatten (unflatten s) = s := by
  funext i
  fin_cases i <;> rfl

/-- The write index after a processed (non-skipped) section, with saving
on: it advances by one less than the number of rows returned. -/
theorem section_step_index (cfg : Config) (dt : ℝ) (ode : OdeFn)
    (rs : RunState) (sec : Segment) (h : ¬ sec.duration < 2 * dt) :
    (section_step cfg dt ode true rs sec).index
      = rs.index + ((ode rs.euler_dot (flatten rs.vstate) (arange sec.duration dt)
          sec.coll_thrust sec.desired_acc).1).length - 1 := by
  simp only [section_step]
  rw [if_neg h, if_pos trivial]

/-- The buffer after a processed section, with saving on: the rows are
written starting at the current index. -/
theorem section_step_buffer (cfg : Config) (dt : ℝ) (ode : OdeFn)
    (rs : RunState) (sec : Segment) (h : ¬ sec.duration < 2 * dt) :
    (section_step cfg dt ode true rs sec).buffer
      = writeRows rs.buffer rs.index
          ((ode rs.euler_dot (flatten rs.vstate) (arange sec.duration dt)
            sec.coll_thrust sec.desired_acc).1) := by
  simp only [section_step]
  rw [if_neg h, if_pos trivial]

/-- The resident state after a processed section is the last returned
row. -/
theorem section_step_vstate (cfg : Config) (dt : ℝ) (ode : OdeFn)
    (rs : RunState) (sec : Segment) (h : ¬ sec.duration < 2 * dt) :
    (section_step cfg dt ode true rs sec).vstate
      = unflatten (((ode rs.euler_dot (flatten rs.vstate) (arange sec.duration dt)
            sec.coll_thrust sec.desired_acc).1).getD
          (((ode rs.euler_dot (flatten rs.vstate) (arange sec.duration dt)
            sec.coll_thrust sec.desired_acc).1).length - 1) (flatten rs.vstate)) := by
  simp only [section_step]
  rw [if_neg h, if_pos trivial]

/-- After a processed section the flattened resident state equals the
buffer row at the new write index: the state continues from the last row
written. -/
theorem section_step_vstate_buffer (cfg : Config) (dt : ℝ) (hdt : 0 < dt)
    (ode : OdeFn) (rs : RunState) (sec : Segment) (h : ¬ sec.duration < 2 * dt)
    (hlen : ((ode rs.euler_dot (flatten rs.vstate) (arange sec.duration dt)
        sec.coll_thrust sec.desired_acc).1).length = arangeLen sec.duration dt) :
    flatten (section_step cfg dt ode true rs sec).vstate
      = (section_step cfg dt ode true rs sec).buffer
          (section_step cfg dt ode true rs sec).index := by
  rw [section_step_vstate cfg dt ode rs sec h, section_step_buffer cfg dt ode rs sec h,
    section_step_index cfg dt ode rs sec h, flatten_unflatten]
  have hn : 1 ≤ ((ode rs.euler_dot (flatten rs.vstate) (arange sec.duration dt)
      sec.coll_thrust sec.desired_acc).1).length := by
    rw [hlen]
    have := arangeLen_ge_two sec.duration dt hdt (not_lt.mp h)
    omega
  simp only [writeRows]
  rw [if_pos (by omega : rs.index ≤ rs.index + ((ode rs.euler_dot (flatten rs.vstate)
      (arange sec.duration dt) sec.coll_thrust sec.desired_acc).1).length - 1
    ∧ rs.index + ((ode rs.euler_dot (flatten rs.vstate) (arange sec.duration dt)
      sec.coll_thrust sec.desired_acc).1).length - 1
        < rs.index + ((ode rs.euler_dot (flatten rs.vstate) (arange sec.duration dt)
      sec.coll_thrust sec.desired_acc).1).length)]
  have hj : rs.index + ((ode rs.euler_dot (flatten rs.vstate) (arange sec.duration dt)
      sec.coll_thrust sec.desired_acc).1).length - 1 - rs.index
      = ((ode rs.euler_dot (flatten rs.vstate) (arange sec.duration dt)
        sec.coll_thrust sec.desired_acc).1).length - 1 := by omega
  rw [hj]
  have hb : ((ode rs.euler_dot (flatten rs.vstate) (arange sec.duration dt)
      sec.coll_thrust sec.desired_acc).1).length - 1
      < ((ode rs.euler_dot (flatten rs.vstate) (arange sec.duration dt)
        sec.coll_thrust sec.desired_acc).1).length := by omega
  rw [List.getD_eq_getElem _ _ hb, List.getD_eq_getElem _ _ hb]

/-- C8 amended: over two consecutive valid segments with saving enabled
(the integrator returning one row per sample time), the rows written to
the buffer number `rows(segment1) + rows(segment2) − 1` (the final index
plus one: the boundary row is overwritten in place, not appended twice),
and the resident state after both segments equals the buffer row at the
final write index.  The returned trajectory, however, is not trimmed to
the written rows: the source returns the whole pre-allocated buffer of
`overall_length + 100` rows, trailing unused zero rows included. -/
theorem c8_amended_two_segments (cfg : Config) (dt : ℝ) (hdt : 0 < dt) (ode : OdeFn)
    (hlen : ∀ c s ts ct da, ((ode c s ts ct da).1).length = ts.length)
    (init : VehicleState) (s1 s2 : Segment)
    (h1 : ¬ s1.duration < 2 * dt) (h2 : ¬ s2.duration < 2 * dt) :
    ((update_state cfg dt ode true init [s1, s2]).2.index + 1
        = arangeLen s1.duration dt + arangeLen s2.duration dt - 1)
      ∧ flatten (update_state cfg dt ode true init [s1, s2]).2.vstate
          = (update_state cfg dt ode true init [s1, s2]).2.buffer
              (update_state cfg dt ode true init [s1, s2]).2.index
      ∧ (update_state cfg dt ode true init [s1, s2]).1.length
          = overallLength dt [s1, s2] + 100 := by
  have hr1 : 2 ≤ arangeLen s1.duration dt := arangeLen_ge_two _ _ hdt (not_lt.mp h1)
  have hr2 : 2 ≤ arangeLen s2.duration dt := arangeLen_ge_two _ _ hdt (not_lt.mp h2)
  have hU2 : (update_state cfg dt ode true init [s1, s2]).2
      = section_step cfg dt ode true
          (section_step cfg dt ode true
            { vstate := init, euler_dot := fun _ => 0, buffer := fun _ _ => 0, index := 0 }
            s1) s2 := rfl
  refine ⟨?_, ?_, ?_⟩
  · rw [hU2, section_step_index cfg dt ode _ s2 h2, hlen, arange_length,
      section_step_index cfg dt ode _ s1 h1, hlen, arange_length]
    have h0 : (RunState.mk init (fun _ => 0) (fun _ _ => 0) 0).index = 0 := rfl
    rw [h0]
    omega
  · rw [hU2]
    exact section_step_vstate_buffer cfg dt hdt ode _ s2 h2 (by rw [hlen, arange_length])
  · show ((List.range (overallLength dt [s1, s2] + 100)).map _).length = _
    rw [List.length_map, List.length_range]

/-- C8 amended witness: the two concrete segments of durations `3 * dt`
and `2 * dt` under the concrete integrator instance. -/
theorem c8_amended_two_segments_witness :
    ((update_state defaultConfig 0.001 odeConst true zeroVehicleState [segA, segB]).2.index + 1
        = arangeLen segA.duration 0.001 + arangeLen segB.duration 0.001 - 1)
      ∧ flatten (update_state defaultConfig 0.001 odeConst true zeroVehicleState
            [segA, segB]).2.vstate
          = (update_state defaultConfig 0.001 odeConst true zeroVehicleState
              [segA, segB]).2.buffer
              (update_state defaultConfig 0.001 odeConst true zeroVehicleState
                [segA, segB]).2.index
      ∧ (update_state defaultConfig 0.001 odeConst true zeroVehicleState
            [segA, segB]).1.length
          = overallLength 0.001 [segA, segB] + 100 :=
  c8_amended_two_segments defaultConfig 0.001 (by norm_num) odeConst
    (by intro c s ts ct da; simp [odeConst]) zeroVehicleState segA segB
    (by show ¬ (0.003 : ℝ) < 2 * 0.001; norm_num)
    (by show ¬ (0.002 : ℝ) < 2 * 0.001; norm_num)

/-- C8 counterexample: on two valid consecutive segments (`3 * dt` and
`2 * dt`), the returned trajectory has `overall_length + 100 = 104` rows,
not `rows(segment1) + rows(segment2) − 1 = 4`: the buffer is returned
untrimmed, trailing unused rows included. -/
theorem c8_counterexample :
    (update_state defaultConfig 0.001 odeConst true zeroVehicleState [segA, segB]).1.length
      ≠ arangeLen segA.duration 0.001 + arangeLen segB.duration 0.001 - 1 := by
  have hL : (update_state defaultConfig 0.001 odeConst true zeroVehicleState
      [segA, segB]).1.length = overallLength 0.001 [segA, segB] + 100 := by
    show ((List.range (overallLength 0.001 [segA, segB] + 100)).map _).length = _
    rw [List.length_map, List.length_range]
  have hs : ((List.map Segment.duration [segA, segB]).sum) / (0.001 : ℝ) = 5 := by
    show ((0.003 : ℝ) + (0.002 + 0)) / 0.001 = 5
    norm_num
  have hov : overallLength 0.001 [segA, segB] = 4 := by
    simp only [overallLength, arangeLen]
    rw [hs]
    norm_num
  have hA : arangeLen segA.duration 0.001 = 3 := by
    simp only [arangeLen]
    have h3 : segA.duration / (0.001 : ℝ) = 3 := by
      show (0.003 : ℝ) / 0.001 = 3
      norm_num
    rw [h3]
    norm_num
  have hB : arangeLen segB.duration 0.001 = 2 := by
    simp only [arangeLen]
    have h2 : segB.duration / (0.001 : ℝ) = 2 := by
      show (0.002 : ℝ) / 0.001 = 2
      norm_num
    rw [h2]
    norm_num
  rw [hL, hov, hA, hB]
  norm_num

end Quadcopter
